import Mathlib

/-!
Verification of the pattern-recall game's path generator.

The JavaScript source keeps the grid dimensions and target path length in
the globals GRID_WIDTH = 12, GRID_HEIGHT = 8, PATH_LENGTH = 36 and generates
a self-avoiding, non-self-touching path by randomized backtracking search
with a deterministic boustrophedon fallback.

Randomness model: every call site of the form
Math.floor(Math.random() * k) is embedded as a draw from an arbitrary
stream g : Nat -> Nat at the current position c of a draw counter,
yielding g c % k, and the counter advances by one per draw.  Any value
the JavaScript can draw (an arbitrary natural below k) is realizable by a
suitable stream, and a fixed stream fixes the whole run.

Loop model: the two while loops of the generator are embedded as
structurally recursive functions on an explicit fuel argument whose
exhaustion case returns exactly the loop's normal exit value.  The fuel
passed by the wrappers dominates the loop's true iteration bound, which is
proved below (fuel-irrelevance lemmas), so the embedding agrees with the
unbounded loop.
-/

namespace PatternRecall

def GRID_WIDTH : Nat := 12
def GRID_HEIGHT : Nat := 8
def PATH_LENGTH : Nat := 36

/-- Adjacency test used throughout the source: coordinates are recovered
from a cell index by x = idx % W, y = floor(idx / W), and two cells are
adjacent when (|dx| = 1 and |dy| = 0) or (|dx| = 0 and |dy| = 1). -/
def isAdjacent (W : Nat) (a b : Nat) : Bool :=
  let dx := ((a % W : Nat) - (b % W : Nat) : Int).natAbs
  let dy := ((a / W : Nat) - (b / W : Nat) : Int).natAbs
  (dx == 1 && dy == 0) || (dx == 0 && dy == 1)

/-- wouldCreateLoop(newIndex, currentX, currentY, path): returns false for
paths of fewer than 3 cells, otherwise true iff the candidate cell is
4-adjacent to some path cell other than the current last one.  (The
currentX/currentY arguments of the source are unused by its body.) -/
def wouldCreateLoop (W : Nat) (newIndex : Nat) (path : List Nat) : Bool :=
  if path.length < 3 then false
  else path.dropLast.any (fun p => isAdjacent W newIndex p)

/-- getValidNeighbors(index, visited, path): the in-bounds, unvisited,
non-loop-creating 4-neighbors of a cell, in the source's direction order
up, down, left, right. -/
def getValidNeighbors (W H : Nat) (index : Nat) (visited path : List Nat) :
    List Nat :=
  let x : Int := (index % W : Nat)
  let y : Int := (index / W : Nat)
  [((0 : Int), (-1 : Int)), (0, 1), (-1, 0), (1, 0)].filterMap (fun d =>
    let nx := x + d.1
    let ny := y + d.2
    if 0 ≤ nx ∧ nx < (W : Int) ∧ 0 ≤ ny ∧ ny < (H : Int) then
      let neighborIndex := (ny * (W : Int) + nx).toNat
      if !(visited.contains neighborIndex) &&
         !(wouldCreateLoop W neighborIndex path) then
        some neighborIndex
      else none
    else none)

/-- Stable descending insertion by the second (score) component: the new
element goes before every element of no greater score. -/
def insertDesc (a : Nat × Nat) : List (Nat × Nat) → List (Nat × Nat)
  | [] => [a]
  | b :: t => if b.2 ≤ a.2 then a :: b :: t else b :: insertDesc a t

/-- Stable descending sort by the second (score) component.  The source
sorts with the comparator (a, b) => b.score - a.score using the stable
Array.prototype.sort; any stable sort for a fixed comparator has a unique
result, realized here by stable insertion sort. -/
def sortByScoreDesc : List (Nat × Nat) → List (Nat × Nat)
  | [] => []
  | a :: t => insertDesc a (sortByScoreDesc t)

/-- chooseNextTile(neighbors, visited, path): a single neighbor is taken
directly; otherwise each candidate is scored by its own valid-neighbor
count after being added, candidates of score 0 are dropped unless at most
2 cells remain to the target, and the result is drawn among the top
min(3, survivors) after a stable descending sort by score.  If no
candidate survives, a uniformly random neighbor is drawn.  Returns the
chosen cell and the advanced draw counter. -/
def chooseNextTile (W H L : Nat) (neighbors visited path : List Nat)
    (g : Nat → Nat) (c : Nat) : Nat × Nat :=
  if neighbors.length == 1 then
    (neighbors.headD 0, c)
  else
    let scored := neighbors.map (fun n =>
      (n, (getValidNeighbors W H n (n :: visited) (path ++ [n])).length))
    let remainingTiles : Int := (L : Int) - (path.length : Int)
    let viable := scored.filter (fun s => decide (0 < s.2) || decide (remainingTiles ≤ 2))
    if viable.isEmpty then
      (neighbors.getD (g c % neighbors.length) 0, c + 1)
    else
      let sorted := sortByScoreDesc viable
      let topCount := min 3 sorted.length
      let topOptions := sorted.take topCount
      ((topOptions.getD (g c % topOptions.length) (0, 0)).1, c + 1)

/-- The random start cell of attemptPathGeneration:
startX = 1 + rand(W-2), startY = 1 + rand(H-2), index = startY*W + startX.
Consumes the draws at positions c and c+1. -/
def startCell (W H : Nat) (g : Nat → Nat) (c : Nat) : Nat :=
  let startX := 1 + g c % (W - 2)
  let startY := 1 + g (c + 1) % (H - 2)
  startY * W + startX

/-- One iteration of the search loop body of attemptPathGeneration, taken
when the loop guard holds.  Returns inl on the in-loop failure exit
(dead end at a path of length at most 1, the source's return null) and
inr with the updated (path, visited, backtrackCount, counter) state when
the loop continues: a dead end pops the last cell from both path and
visited and increments the backtrack counter; otherwise the chosen next
cell is pushed onto both. -/
def genStep (W H L : Nat) (g : Nat → Nat) (path visited : List Nat)
    (btk c : Nat) : (Option (List Nat)) ⊕ (List Nat × List Nat × Nat × Nat) :=
  let current := path.getLastD 0
  let neighbors := getValidNeighbors W H current visited path
  if neighbors.isEmpty then
    if path.length ≤ 1 then .inl none
    else .inr (path.dropLast, visited.erase current, btk + 1, c)
  else
    let next := chooseNextTile W H L neighbors visited path g c
    .inr (path ++ [next.1], next.1 :: visited, btk, next.2)

/-- The search loop of attemptPathGeneration:
while path.length < L and backtrackCount < maxB, run one genStep;
on exit return the path if it reached exactly length L, else null.
Structural fuel; the fuel-exhaustion value equals the loop's exit value,
and the fuel-irrelevance lemma below shows any fuel of at least
2*(maxB - btk) + (L - path.length) yields the loop's true result. -/
def genLoopF (W H L maxB : Nat) (g : Nat → Nat) :
    Nat → List Nat → List Nat → Nat → Nat → Option (List Nat) × Nat
  | 0, path, _, _, c => (if path.length == L then some path else none, c)
  | fuel + 1, path, visited, btk, c =>
    if path.length < L ∧ btk < maxB then
      match genStep W H L g path visited btk c with
      | .inl r => (r, c)
      | .inr (p, v, b, c2) => genLoopF W H L maxB g fuel p v b c2
    else (if path.length == L then some path else none, c)

/-- attemptPathGeneration: start from the random interior cell, with
path = visited = [start], backtrackCount = 0, maxBacktracks = maxB
(1000 in the source), then run the search loop.  The fuel 2*maxB + L
dominates the loop's iteration count. -/
def attemptPathGeneration (W H L maxB : Nat) (g : Nat → Nat) (c : Nat) :
    Option (List Nat) × Nat :=
  let s := startCell W H g c
  genLoopF W H L maxB g (2 * maxB + L) [s] [s] 0 (c + 2)

/-- The retry loop of generatePath: up to `fuel` (maxAttempts) attempts,
returning the first full-length path, or none when attempts run out. -/
def genTries (W H L maxB : Nat) (g : Nat → Nat) :
    Nat → Nat → Option (List Nat) × Nat
  | 0, c => (none, c)
  | fuel + 1, c =>
    match attemptPathGeneration W H L maxB g c with
    | (some p, c2) =>
      if p.length == L then (some p, c2) else genTries W H L maxB g fuel c2
    | (none, c2) => genTries W H L maxB g fuel c2

/-- The fallback boustrophedon loop of generateSnakePath: push the current
cell, continue in the current direction while in bounds and below the
target length, otherwise move down a row, stopping at the bottom, and
reverse direction.  Each iteration pushes exactly one cell, so fuel L
dominates the loop. -/
def snakeLoopF (W H L : Nat) :
    Nat → List Nat → Int → Nat → Int → List Nat
  | 0, path, _, _, _ => path
  | fuel + 1, path, x, y, direction =>
    if path.length < L then
      let index := ((y : Int) * (W : Int) + x).toNat
      let path2 := path ++ [index]
      let nextX := x + direction
      if 0 ≤ nextX ∧ nextX < (W : Int) ∧ path2.length < L then
        snakeLoopF W H L fuel path2 nextX y direction
      else
        if (y + 1 : Nat) ≥ H then path2
        else snakeLoopF W H L fuel path2 x (y + 1) (-direction)
    else path

/-- generateSnakePath: the deterministic snake fallback starting at (0,0)
moving right. -/
def generateSnakePath (W H L : Nat) : List Nat :=
  snakeLoopF W H L L [] 0 0 1

/-- generatePath: up to maxAttempts = 200 search attempts with
maxBacktracks = 1000, falling back to the snake path.  Returns the path
and the advanced draw counter. -/
def generatePath (g : Nat → Nat) (c : Nat) : List Nat × Nat :=
  match genTries GRID_WIDTH GRID_HEIGHT PATH_LENGTH 1000 g 200 c with
  | (some p, c2) => (p, c2)
  | (none, c2) => (generateSnakePath GRID_WIDTH GRID_HEIGHT PATH_LENGTH, c2)

/-- No two consecutive cells of the list fail the adjacency test. -/
def ConsecOk (W : Nat) : List Nat → Bool
  | [] => true
  | [_] => true
  | a :: b :: t => isAdjacent W a b && ConsecOk W (b :: t)

/-- No two non-consecutive cells of the list are 4-adjacent. -/
def NoTouch (W : Nat) (path : List Nat) : Prop :=
  ∀ j < path.length, ∀ i < j, i + 1 < j →
    isAdjacent W (path.getD i 0) (path.getD j 0) = false

instance (W : Nat) (path : List Nat) : Decidable (NoTouch W path) := by
  unfold NoTouch; infer_instance

/-! Game-controller state, from the source's gameState object and the
showPattern handler.  DOM access and timers are UI glue outside the
embedded state. -/

inductive Mode where
  | IDLE
  | MEMORIZE
  | RECALL
deriving DecidableEq, Repr

structure GameState where
  pattern : List Nat
  userSelected : List Nat
  mode : Mode
  peekCount : Nat
deriving Repr

/-- showPattern: increments peekCount exactly when the mode is RECALL,
then switches to MEMORIZE and clears the player's selections.  (The
subsequent status/progress/pattern display calls are pure UI.) -/
def showPattern (s : GameState) : GameState :=
  let s1 := if s.mode = Mode.RECALL then { s with peekCount := s.peekCount + 1 } else s
  { s1 with mode := Mode.MEMORIZE, userSelected := [] }

/-! Basic geometric lemmas about the 12 x 8 grid used by the game. -/

/-- Two cells each adjacent to the ends of an adjacent pair cannot be
adjacent to each other: adjacency flips the parity of x + y. -/
theorem isAdjacent_chain_not {a b c : Nat} (h1 : isAdjacent 12 a b = true)
    (h2 : isAdjacent 12 b c = true) : isAdjacent 12 a c = false := by
  simp only [isAdjacent, Bool.or_eq_true, Bool.and_eq_true, beq_iff_eq,
    Bool.or_eq_false_iff, Bool.and_eq_false_iff, beq_eq_false_iff_ne, ne_eq] at *
  omega

/-- Non-adjacency is symmetric. -/
theorem isAdjacent_false_symm {a b : Nat} (h : isAdjacent 12 a b = false) :
    isAdjacent 12 b a = false := by
  simp only [isAdjacent, Bool.or_eq_false_iff, Bool.and_eq_false_iff,
    beq_eq_false_iff_ne, ne_eq] at *
  omega

/-- A cell produced by getValidNeighbors on the 12 x 8 grid is in range,
unvisited, passes the loop check, and is 4-adjacent to the queried cell. -/
theorem mem_getValidNeighbors {index n : Nat} {visited path : List Nat}
    (h : n ∈ getValidNeighbors 12 8 index visited path) :
    n < 96 ∧ visited.contains n = false ∧ wouldCreateLoop 12 n path = false ∧
      isAdjacent 12 index n = true := by
  simp only [getValidNeighbors, List.mem_filterMap, List.mem_cons,
    List.mem_singleton, List.not_mem_nil, or_false] at h
  obtain ⟨d, hd, hf⟩ := h
  have hcont : ∀ m, visited.contains m = false → wouldCreateLoop 12 m path = false →
      m = n → visited.contains n = false ∧ wouldCreateLoop 12 n path = false := by
    intro m h1 h2 h3; subst h3; exact ⟨h1, h2⟩
  rcases hd with rfl | rfl | rfl | rfl <;>
  · simp only at hf
    split_ifs at hf with hb hb2
    rw [Bool.and_eq_true, Bool.not_eq_true', Bool.not_eq_true'] at hb2
    obtain ⟨h1, h2⟩ := hb2
    injection hf with h3
    refine ⟨?_, hcont _ h1 h2 h3 |>.1, hcont _ h1 h2 h3 |>.2, ?_⟩
    · omega
    · subst h3
      simp only [isAdjacent, Bool.or_eq_true, Bool.and_eq_true, beq_iff_eq]
      omega

/-- chooseNextTile always returns one of the supplied neighbors. -/
theorem insertDesc_perm (a : Nat × Nat) :
    ∀ l : List (Nat × Nat), (insertDesc a l).Perm (a :: l) := by
  intro l
  induction l with
  | nil => rfl
  | cons b t ih =>
    rw [insertDesc]
    split
    · exact List.Perm.refl _
    · exact (ih.cons b).trans (List.Perm.swap a b t)

theorem sortByScoreDesc_perm :
    ∀ l : List (Nat × Nat), (sortByScoreDesc l).Perm l := by
  intro l
  induction l with
  | nil => rfl
  | cons a t ih =>
    rw [sortByScoreDesc]
    exact (insertDesc_perm a (sortByScoreDesc t)).trans (ih.cons a)

theorem chooseNextTile_fst_mem {W H L : Nat} {neighbors visited path : List Nat}
    {g : Nat → Nat} {c : Nat} (hne : neighbors ≠ []) :
    (chooseNextTile W H L neighbors visited path g c).1 ∈ neighbors := by
  unfold chooseNextTile
  split
  · cases neighbors with
    | nil => exact absurd rfl hne
    | cons a t => exact List.mem_cons_self a t
  · simp only
    split
    · rename_i hvia
      have hlen : 0 < neighbors.length := List.length_pos.mpr hne
      rw [List.getD_eq_getElem _ _ (Nat.mod_lt _ hlen)]
      exact List.getElem_mem _
    · rename_i hvia
      set viable := (neighbors.map (fun n =>
        (n, (getValidNeighbors W H n (n :: visited) (path ++ [n])).length))).filter
        (fun s => decide (0 < s.2) ||
          decide ((L : Int) - (path.length : Int) ≤ 2)) with hviable
      have hvne : viable ≠ [] := by
        intro hnil
        rw [hnil] at hvia
        exact hvia rfl
      set sorted := sortByScoreDesc viable with hsorted
      have hsne : sorted ≠ [] := by
        intro hnil
        apply hvne
        have := sortByScoreDesc_perm viable
        rw [← hsorted, hnil] at this
        exact this.symm.eq_nil
      have htopne : 0 < (sorted.take (min 3 sorted.length)).length := by
        rw [List.length_take]
        have := List.length_pos.mpr hsne
        omega
      have hmem : (sorted.take (min 3 sorted.length)).getD
          (g c % (sorted.take (min 3 sorted.length)).length) (0, 0) ∈
          sorted.take (min 3 sorted.length) := by
        rw [List.getD_eq_getElem _ _ (Nat.mod_lt _ htopne)]
        exact List.getElem_mem _
      have hmem2 : (sorted.take (min 3 sorted.length)).getD
          (g c % (sorted.take (min 3 sorted.length)).length) (0, 0) ∈ viable := by
        have := List.take_subset (min 3 sorted.length) sorted hmem
        have hperm := sortByScoreDesc_perm viable
        rw [← hsorted] at hperm
        exact hperm.mem_iff.mp this
      have hmem3 := List.mem_of_mem_filter hmem2
      obtain ⟨m, hm, hms⟩ := List.mem_map.mp hmem3
      rw [← hms]
      exact hm

/-! Structural lemmas about consecutive adjacency and non-touching. -/

theorem consecOk_push {W : Nat} : ∀ {l : List Nat} {n : Nat},
    ConsecOk W l = true → isAdjacent W (l.getLastD 0) n = true →
    ConsecOk W (l ++ [n]) = true := by
  intro l
  induction l with
  | nil => intro n _ _; rfl
  | cons a t ih =>
    cases t with
    | nil =>
      intro n _ hadj
      simp only [List.getLastD_cons, List.getLastD_nil] at hadj
      simp only [List.cons_append, List.nil_append, ConsecOk, hadj,
        Bool.true_and]
    | cons b t2 =>
      intro n h hadj
      simp only [ConsecOk, Bool.and_eq_true] at h
      simp only [List.cons_append, ConsecOk, Bool.and_eq_true]
      refine ⟨h.1, ?_⟩
      apply ih h.2
      simp only [List.getLastD_cons] at hadj ⊢
      exact hadj

theorem consecOk_dropLast {W : Nat} : ∀ {l : List Nat},
    ConsecOk W l = true → ConsecOk W l.dropLast = true := by
  intro l
  induction l with
  | nil => intro h; exact h
  | cons a t ih =>
    cases t with
    | nil => intro _; rfl
    | cons b t2 =>
      intro h
      simp only [ConsecOk, Bool.and_eq_true] at h
      rw [List.dropLast_cons₂]
      cases t2 with
      | nil => rfl
      | cons c t3 =>
        rw [List.dropLast_cons₂]
        have := ih h.2
        rw [List.dropLast_cons₂] at this
        simp only [ConsecOk, Bool.and_eq_true]
        exact ⟨h.1, this⟩

theorem getD_dropLast {l : List Nat} {i : Nat} (h : i < l.length - 1) :
    l.dropLast.getD i 0 = l.getD i 0 := by
  have h1 : i < l.dropLast.length := by
    rw [List.length_dropLast]; exact h
  have h2 : i < l.length := by omega
  rw [List.getD_eq_getElem _ _ h1, List.getD_eq_getElem _ _ h2,
    List.getElem_dropLast]

theorem noTouch_dropLast {l : List Nat} (h : NoTouch 12 l) :
    NoTouch 12 l.dropLast := by
  intro j hj i hi hij
  rw [List.length_dropLast] at hj
  rw [getD_dropLast hj, getD_dropLast (by omega)]
  exact h j (by omega) i hi hij

theorem noTouch_push {l : List Nat} {n : Nat}
    (hcons : ConsecOk 12 l = true) (hnt : NoTouch 12 l)
    (hloop : wouldCreateLoop 12 n l = false)
    (hadj : isAdjacent 12 (l.getLastD 0) n = true) :
    NoTouch 12 (l ++ [n]) := by
  intro j hj i hi hij
  rw [List.length_append, List.length_singleton] at hj
  by_cases hjl : j < l.length
  · rw [List.getD_append _ _ _ _ (by omega), List.getD_append _ _ _ _ hjl]
    exact hnt j hjl i hi hij
  · have hje : j = l.length := by omega
    have hil : i < l.length := by omega
    have hgj : (l ++ [n]).getD j 0 = n := by
      rw [List.getD_eq_getElem _ _
        (by rw [List.length_append, List.length_singleton]; omega)]
      exact List.getElem_concat_length l n j hje _
    rw [hgj, List.getD_append _ _ _ _ hil]
    by_cases h3 : 3 ≤ l.length
    · have hl3 : ¬ l.length < 3 := by omega
      rw [wouldCreateLoop, if_neg hl3, List.any_eq_false] at hloop
      have hmem : l.getD i 0 ∈ l.dropLast := by
        have hi2 : i < l.dropLast.length := by
          rw [List.length_dropLast]; omega
        rw [← getD_dropLast (by omega), List.getD_eq_getElem _ _ hi2]
        exact List.getElem_mem hi2
      have := hloop _ hmem
      rw [Bool.not_eq_true] at this
      exact isAdjacent_false_symm this
    · have hl2 : l.length = 2 := by omega
      have hie : i = 0 := by omega
      subst hie
      match l, hl2 with
      | [a, b], _ =>
        simp only [ConsecOk, Bool.and_eq_true] at hcons
        simp only [List.getLastD_cons, List.getLastD_nil] at hadj
        simp only [List.getD]
        exact isAdjacent_chain_not hcons.1 hadj

/-! The search-loop invariant. -/

/-- Invariant of the search state of attemptPathGeneration on the 12 x 8
grid: the path is a nonempty duplicate-free list of in-range cells, the
visited set holds exactly the path's cells, consecutive path cells are
adjacent, and non-consecutive ones are not. -/
def Inv (path visited : List Nat) : Prop :=
  path ≠ [] ∧ path.Nodup ∧ (∀ a ∈ path, a < 96) ∧ visited.Perm path ∧
    ConsecOk 12 path = true ∧ NoTouch 12 path

theorem dropLast_append_getLastD {l : List Nat} (h : l ≠ []) :
    l.dropLast ++ [l.getLastD 0] = l := by
  rw [List.getLastD_eq_getLast?, List.getLast?_eq_getLast _ h]
  exact List.dropLast_append_getLast h

theorem inv_pop {path visited : List Nat} (h : Inv path visited)
    (h2 : 2 ≤ path.length) :
    Inv path.dropLast (visited.erase (path.getLastD 0)) := by
  obtain ⟨hne, hnd, hbnd, hperm, hcons, hnt⟩ := h
  have hsplit := dropLast_append_getLastD hne
  have hnotmem : path.getLastD 0 ∉ path.dropLast := by
    have := hnd
    rw [← hsplit, List.nodup_append] at this
    intro hmem
    exact this.2.2 hmem (List.mem_singleton.mpr rfl)
  refine ⟨?_, ?_, ?_, ?_, consecOk_dropLast hcons, noTouch_dropLast hnt⟩
  · intro hnil
    have hlen := List.length_dropLast path
    rw [hnil] at hlen
    simp only [List.length_nil] at hlen
    omega
  · exact (List.dropLast_sublist path).nodup hnd
  · intro a ha
    exact hbnd a ((List.dropLast_sublist path).subset ha)
  · have herase : path.erase (path.getLastD 0) = path.dropLast := by
      set a := path.getLastD 0 with ha
      conv_lhs => rw [← hsplit]
      rw [List.erase_append_right _ hnotmem, List.erase_cons_head,
        List.append_nil]
    have := List.Perm.erase (path.getLastD 0) hperm
    rw [herase] at this
    exact this

theorem inv_push {path visited : List Nat} {n : Nat} (h : Inv path visited)
    (hn : n ∈ getValidNeighbors 12 8 (path.getLastD 0) visited path) :
    Inv (path ++ [n]) (n :: visited) := by
  obtain ⟨hne, hnd, hbnd, hperm, hcons, hnt⟩ := h
  obtain ⟨hrange, hcont, hloop, hadj⟩ := mem_getValidNeighbors hn
  have hnotmem : n ∉ path := by
    intro hmem
    have : visited.contains n = true := List.elem_iff.mpr (hperm.mem_iff.mpr hmem)
    rw [hcont] at this
    exact Bool.false_ne_true this
  refine ⟨by simp, ?_, ?_, ?_, consecOk_push hcons hadj,
    noTouch_push hcons hnt hloop hadj⟩
  · rw [List.nodup_append]
    exact ⟨hnd, List.nodup_singleton n, fun x hx hx2 =>
      hnotmem ((List.mem_singleton.mp hx2) ▸ hx)⟩
  · intro a ha
    rcases List.mem_append.mp ha with ha | ha
    · exact hbnd a ha
    · rw [List.mem_singleton.mp ha]; exact hrange
  · exact (hperm.cons n).trans (List.perm_append_singleton n path).symm

theorem head?_append_singleton {path : List Nat} {n : Nat} (h : path ≠ []) :
    (path ++ [n]).head? = path.head? := by
  cases path with
  | nil => exact absurd rfl h
  | cons a t => rfl

theorem head?_dropLast {path : List Nat} (h : 2 ≤ path.length) :
    path.dropLast.head? = path.head? := by
  match path, h with
  | a :: b :: t, _ => rw [List.dropLast_cons₂]; rfl

/-- The in-loop failure exit of the search loop returns null. -/
theorem genStep_inl {W H L : Nat} {g : Nat → Nat} {path visited : List Nat}
    {btk c : Nat} {r : Option (List Nat)}
    (h : genStep W H L g path visited btk c = .inl r) : r = none := by
  unfold genStep at h
  dsimp only at h
  split at h
  · split at h
    · injection h with h; exact h.symm
    · exact absurd h (by simp)
  · exact absurd h (by simp)

/-- One continuing step of the search loop preserves the invariant and the
first path cell. -/
theorem genStep_inr_inv {L : Nat} {g : Nat → Nat} {path visited : List Nat}
    {btk c : Nat} {p v : List Nat} {b c2 : Nat}
    (hstep : genStep 12 8 L g path visited btk c = .inr (p, v, b, c2))
    (hinv : Inv path visited) : Inv p v ∧ p.head? = path.head? := by
  unfold genStep at hstep
  dsimp only at hstep
  split at hstep
  · rename_i hni
    split at hstep
    · exact absurd hstep (by simp)
    · rename_i hlen
      simp only [Sum.inr.injEq, Prod.mk.injEq] at hstep
      obtain ⟨hp, hv, _, _⟩ := hstep
      have hlen2 : 2 ≤ path.length := by
        have := List.length_pos.mpr hinv.1
        omega
      subst hp hv
      exact ⟨inv_pop hinv hlen2, head?_dropLast hlen2⟩
  · rename_i hni
    simp only [Sum.inr.injEq, Prod.mk.injEq] at hstep
    obtain ⟨hp, hv, _, _⟩ := hstep
    have hne : getValidNeighbors 12 8 (path.getLastD 0) visited path ≠ [] := by
      intro hnil
      rw [hnil] at hni
      exact hni rfl
    have hmem := @chooseNextTile_fst_mem 12 8 L _ visited path g c hne
    subst hp hv
    exact ⟨inv_push hinv hmem, head?_append_singleton hinv.1⟩

/-- Any full-length path returned by the search loop on the 12 x 8 grid
with target length 36 satisfies all path invariants and keeps the start
cell first. -/
theorem genLoopF_some {maxB : Nat} {g : Nat → Nat} :
    ∀ fuel {path visited : List Nat} {btk c : Nat} {p : List Nat} {c2 : Nat},
    Inv path visited →
    genLoopF 12 8 36 maxB g fuel path visited btk c = (some p, c2) →
    p.length = 36 ∧ p.Nodup ∧ (∀ a ∈ p, a < 96) ∧ ConsecOk 12 p = true ∧
      NoTouch 12 p ∧ p.head? = path.head? := by
  intro fuel
  induction fuel with
  | zero =>
    intro path visited btk c p c2 hinv h
    rw [genLoopF] at h
    split at h
    · rename_i hbeq
      injection h with h1 _
      injection h1 with h1
      subst h1
      exact ⟨beq_iff_eq.mp hbeq, hinv.2.1, hinv.2.2.1, hinv.2.2.2.2.1,
        hinv.2.2.2.2.2, rfl⟩
    · exact absurd h (by simp)
  | succ fuel ih =>
    intro path visited btk c p c2 hinv h
    rw [genLoopF] at h
    split at h
    · rcases hstep : genStep 12 8 36 g path visited btk c with r | ⟨p1, v1, b1, c1⟩
      · rw [hstep] at h
        rw [genStep_inl hstep] at h
        exact absurd h (by simp)
      · rw [hstep] at h
        obtain ⟨hinv1, hhead⟩ := genStep_inr_inv hstep hinv
        have := ih hinv1 h
        exact ⟨this.1, this.2.1, this.2.2.1, this.2.2.2.1, this.2.2.2.2.1,
          this.2.2.2.2.2.trans hhead⟩
    · rename_i hbeq
      split at h
      · rename_i hbeq2
        injection h with h1 _
        injection h1 with h1
        subst h1
        exact ⟨beq_iff_eq.mp hbeq2, hinv.2.1, hinv.2.2.1, hinv.2.2.2.2.1,
          hinv.2.2.2.2.2, rfl⟩
      · exact absurd h (by simp)

/-- The search loop's result does not depend on the fuel once the fuel
reaches 2*(maxBacktracks - backtrackCount) + (target - path length): the
loop terminates within that many iterations, because every iteration
either pushes a cell (bounded by the remaining length) or increments the
backtrack counter (bounded by maxBacktracks). -/
theorem genLoopF_fuel_irrel {W H L maxB : Nat} {g : Nat → Nat} :
    ∀ fuel1 fuel2 {path visited : List Nat} {btk c : Nat},
    2 * (maxB - btk) + (L - path.length) ≤ fuel1 →
    2 * (maxB - btk) + (L - path.length) ≤ fuel2 →
    genLoopF W H L maxB g fuel1 path visited btk c =
      genLoopF W H L maxB g fuel2 path visited btk c := by
  intro fuel1
  induction fuel1 with
  | zero =>
    intro fuel2 path visited btk c h1 h2
    have hg : ¬ (path.length < L ∧ btk < maxB) := by omega
    cases fuel2 with
    | zero => rfl
    | succ f2 => rw [genLoopF, genLoopF, if_neg hg]
  | succ f1 ih =>
    intro fuel2 path visited btk c h1 h2
    by_cases hg : path.length < L ∧ btk < maxB
    · have hf2 : ∃ f2p, fuel2 = f2p + 1 := by
        cases fuel2 with
        | zero => omega
        | succ f2p => exact ⟨f2p, rfl⟩
      obtain ⟨f2p, rfl⟩ := hf2
      rw [genLoopF, genLoopF, if_pos hg, if_pos hg]
      rcases hstep : genStep W H L g path visited btk c with r | ⟨p1, v1, b1, c1⟩
      · rfl
      · have hbound : 2 * (maxB - b1) + (L - p1.length) + 1 ≤
            2 * (maxB - btk) + (L - path.length) := by
          unfold genStep at hstep
          dsimp only at hstep
          split at hstep
          · split at hstep
            · exact absurd hstep (by simp)
            · rename_i hlen
              simp only [Sum.inr.injEq, Prod.mk.injEq] at hstep
              obtain ⟨hp, _, hb, _⟩ := hstep
              have : p1.length = path.length - 1 := by
                rw [← hp]; exact List.length_dropLast path
              omega
          · simp only [Sum.inr.injEq, Prod.mk.injEq] at hstep
            obtain ⟨hp, _, hb, _⟩ := hstep
            have : p1.length = path.length + 1 := by
              rw [← hp]; rw [List.length_append, List.length_singleton]
            omega
        exact ih f2p (by omega) (by omega)
    · cases fuel2 with
      | zero => rw [genLoopF, genLoopF, if_neg hg]
      | succ f2p => rw [genLoopF, genLoopF, if_neg hg, if_neg hg]

/-- The snake loop's result does not depend on the fuel once the fuel
reaches the remaining length: every iteration pushes exactly one cell. -/
theorem snakeLoopF_fuel_irrel {W H L : Nat} :
    ∀ fuel1 fuel2 {path : List Nat} {x : Int} {y : Nat} {d : Int},
    L - path.length ≤ fuel1 → L - path.length ≤ fuel2 →
    snakeLoopF W H L fuel1 path x y d = snakeLoopF W H L fuel2 path x y d := by
  intro fuel1
  induction fuel1 with
  | zero =>
    intro fuel2 path x y d h1 h2
    have hg : ¬ path.length < L := by omega
    cases fuel2 with
    | zero => rfl
    | succ f2 => rw [snakeLoopF, snakeLoopF, if_neg hg]
  | succ f1 ih =>
    intro fuel2 path x y d h1 h2
    by_cases hg : path.length < L
    · have hf2 : ∃ f2p, fuel2 = f2p + 1 := by
        cases fuel2 with
        | zero => omega
        | succ f2p => exact ⟨f2p, rfl⟩
      obtain ⟨f2p, rfl⟩ := hf2
      rw [snakeLoopF, snakeLoopF, if_pos hg, if_pos hg]
      dsimp only
      split
      · exact ih f2p
          (by rw [List.length_append, List.length_singleton]; omega)
          (by rw [List.length_append, List.length_singleton]; omega)
      · split
        · rfl
        · exact ih f2p
            (by rw [List.length_append, List.length_singleton]; omega)
            (by rw [List.length_append, List.length_singleton]; omega)
    · cases fuel2 with
      | zero => rw [snakeLoopF, snakeLoopF, if_neg hg]
      | succ f2p => rw [snakeLoopF, snakeLoopF, if_neg hg, if_neg hg]

theorem startCell_lt {g : Nat → Nat} {c : Nat} : startCell 12 8 g c < 96 := by
  unfold startCell
  dsimp only
  omega

theorem inv_init {s : Nat} (hs : s < 96) : Inv [s] [s] := by
  refine ⟨by simp, List.nodup_singleton s, ?_, List.Perm.refl _, rfl, ?_⟩
  · intro a ha
    rw [List.mem_singleton] at ha
    rw [ha]
    exact hs
  · intro j hj i hi hij
    simp only [List.length_singleton] at hj
    omega

/-- Any full-length path returned by attemptPathGeneration on the 12 x 8
grid satisfies the path invariants and begins at the drawn start cell. -/
theorem attempt_some {maxB : Nat} {g : Nat → Nat} {c : Nat} {p : List Nat}
    {c2 : Nat}
    (h : attemptPathGeneration 12 8 36 maxB g c = (some p, c2)) :
    p.length = 36 ∧ p.Nodup ∧ (∀ a ∈ p, a < 96) ∧ ConsecOk 12 p = true ∧
      NoTouch 12 p ∧ p.head? = some (startCell 12 8 g c) := by
  unfold attemptPathGeneration at h
  dsimp only at h
  have := genLoopF_some _ (inv_init startCell_lt) h
  exact ⟨this.1, this.2.1, this.2.2.1, this.2.2.2.1, this.2.2.2.2.1,
    this.2.2.2.2.2⟩

/-- Any path returned by the retry loop satisfies the path invariants. -/
theorem genTries_some {maxB : Nat} {g : Nat → Nat} :
    ∀ fuel {c : Nat} {p : List Nat} {c2 : Nat},
    genTries 12 8 36 maxB g fuel c = (some p, c2) →
    p.length = 36 ∧ p.Nodup ∧ (∀ a ∈ p, a < 96) ∧ ConsecOk 12 p = true ∧
      NoTouch 12 p := by
  intro fuel
  induction fuel with
  | zero =>
    intro c p c2 h
    rw [genTries] at h
    exact absurd h (by simp)
  | succ fuel ih =>
    intro c p c2 h
    rw [genTries] at h
    rcases hatt : attemptPathGeneration 12 8 36 maxB g c with ⟨o, c1⟩
    rw [hatt] at h
    cases o with
    | none => exact ih h
    | some q =>
      dsimp only at h
      split at h
      · injection h with h1 _
        injection h1 with h1
        subst h1
        have := attempt_some hatt
        exact ⟨this.1, this.2.1, this.2.2.1, this.2.2.2.1, this.2.2.2.2.1⟩
      · exact ih h

/-- The concrete value of the snake fallback for the game configuration:
three full rows traversed boustrophedon-style. -/
theorem generateSnakePath_concrete : generateSnakePath 12 8 36 =
    [0, 1, 2, 3, 4, 5, 6, 7, 8, 9, 10, 11, 23, 22, 21, 20, 19, 18, 17, 16,
     15, 14, 13, 12, 24, 25, 26, 27, 28, 29, 30, 31, 32, 33, 34, 35] := by
  decide

/-- C1: for the fixed configuration (width 12, height 8, length 36), every
call to generatePath returns an ordered sequence of exactly 36 pairwise
distinct cell indices, each below width*height = 96 — whether it comes
from a successful search attempt or from the snake fallback. -/
theorem C1_generatePath_valid (g : Nat → Nat) (c : Nat) :
    (generatePath g c).1.length = 36 ∧ (generatePath g c).1.Nodup ∧
      ∀ a ∈ (generatePath g c).1, a < 96 := by
  unfold generatePath
  rcases htr : genTries GRID_WIDTH GRID_HEIGHT PATH_LENGTH 1000 g 200 c
    with ⟨o, c2⟩
  simp only [GRID_WIDTH, GRID_HEIGHT, PATH_LENGTH] at htr
  cases o with
  | some p =>
    simp only [GRID_WIDTH, GRID_HEIGHT, PATH_LENGTH, htr]
    have := genTries_some _ htr
    exact ⟨this.1, this.2.1, this.2.2.1⟩
  | none =>
    simp only [GRID_WIDTH, GRID_HEIGHT, PATH_LENGTH, htr]
    rw [generateSnakePath_concrete]
    refine ⟨by decide, by decide, by decide⟩

/-- C3: every sequence returned by generatePath — search-produced paths
and the snake fallback alike — has every pair of consecutive cells
4-directionally adjacent (Manhattan distance exactly 1). -/
theorem C3_generatePath_consecutive_adjacent (g : Nat → Nat) (c : Nat) :
    ConsecOk GRID_WIDTH (generatePath g c).1 = true := by
  unfold generatePath
  rcases htr : genTries GRID_WIDTH GRID_HEIGHT PATH_LENGTH 1000 g 200 c
    with ⟨o, c2⟩
  simp only [GRID_WIDTH, GRID_HEIGHT, PATH_LENGTH] at htr
  cases o with
  | some p =>
    simp only [GRID_WIDTH, GRID_HEIGHT, PATH_LENGTH, htr]
    exact (genTries_some _ htr).2.2.2.1
  | none =>
    simp only [GRID_WIDTH, GRID_HEIGHT, PATH_LENGTH, htr]
    rw [generateSnakePath_concrete]
    decide

/-- C2: no two non-consecutive cells of a full-length path produced by a
successful search attempt are 4-directionally adjacent, the loop-check
skip for short paths and the scoring exceptions of chooseNextTile
notwithstanding. -/
theorem C2_attempt_no_touch (maxB : Nat) (g : Nat → Nat) (c : Nat)
    (p : List Nat) (c2 : Nat)
    (h : attemptPathGeneration 12 8 36 maxB g c = (some p, c2)) :
    NoTouch 12 p :=
  (attempt_some h).2.2.2.2.1

/-- Witness for C2 at a concrete successful attempt. -/
theorem C2_attempt_no_touch_witness :
    NoTouch 12 [13, 25, 37, 49, 61, 73, 85, 86, 87, 75, 63, 51, 39, 27, 15,
      3, 4, 5, 17, 29, 41, 53, 65, 77, 78, 79, 80, 81, 82, 70, 58, 46, 34,
      22, 10, 9] :=
  C2_attempt_no_touch 5 (fun _ => 0) 0 _ 35 (by decide)

/-- A cell produced by getValidNeighbors is not in the visited set
(any grid dimensions). -/
theorem getValidNeighbors_not_contains {W H index n : Nat}
    {visited path : List Nat}
    (h : n ∈ getValidNeighbors W H index visited path) :
    visited.contains n = false := by
  simp only [getValidNeighbors, List.mem_filterMap, List.mem_cons,
    List.mem_singleton, List.not_mem_nil, or_false] at h
  obtain ⟨d, hd, hf⟩ := h
  rcases hd with rfl | rfl | rfl | rfl <;>
  · simp only at hf
    split_ifs at hf with hb hb2
    rw [Bool.and_eq_true, Bool.not_eq_true', Bool.not_eq_true'] at hb2
    injection hf with h3
    rw [← h3]
    exact hb2.1

/-- C4: each continuing iteration of the search loop keeps the visited
set in lock-step with the path: if the visited set holds exactly the
path's cells before a step of attemptPathGeneration's loop, it holds
exactly the (duplicate-free) path's cells after it; in particular the
backtracking branch removes the popped cell from both. -/
theorem C4_visited_lockstep (W H L : Nat) (g : Nat → Nat)
    (path visited : List Nat) (btk c : Nat) (p v : List Nat) (b c2 : Nat)
    (hstep : genStep W H L g path visited btk c = .inr (p, v, b, c2))
    (hperm : visited.Perm path) (hnd : path.Nodup) :
    v.Perm p ∧ p.Nodup ∧ ∀ n, n ∈ v ↔ n ∈ p := by
  unfold genStep at hstep
  dsimp only at hstep
  split at hstep
  · split at hstep
    · exact absurd hstep (by simp)
    · rename_i hlen
      simp only [Sum.inr.injEq, Prod.mk.injEq] at hstep
      obtain ⟨hp, hv, _, _⟩ := hstep
      subst hp hv
      have hne : path ≠ [] := by
        intro hnil
        rw [hnil] at hlen
        exact hlen (by simp)
      have hsplit := dropLast_append_getLastD hne
      have hnotmem : path.getLastD 0 ∉ path.dropLast := by
        have hnd2 := hnd
        rw [← hsplit, List.nodup_append] at hnd2
        intro hmem
        exact hnd2.2.2 hmem (List.mem_singleton.mpr rfl)
      have herase : path.erase (path.getLastD 0) = path.dropLast := by
        set a := path.getLastD 0 with ha
        conv_lhs => rw [← hsplit]
        rw [List.erase_append_right _ hnotmem, List.erase_cons_head,
          List.append_nil]
      have hperm2 := List.Perm.erase (path.getLastD 0) hperm
      rw [herase] at hperm2
      exact ⟨hperm2, (List.dropLast_sublist path).nodup hnd,
        fun n => hperm2.mem_iff⟩
  · rename_i hni
    simp only [Sum.inr.injEq, Prod.mk.injEq] at hstep
    obtain ⟨hp, hv, _, _⟩ := hstep
    subst hp hv
    have hnbne : getValidNeighbors W H (path.getLastD 0) visited path ≠ [] := by
      intro hnil
      rw [hnil] at hni
      exact hni rfl
    have hmem := @chooseNextTile_fst_mem W H L _ visited path g c hnbne
    have hcont := getValidNeighbors_not_contains hmem
    have hnotmem : (chooseNextTile W H L
        (getValidNeighbors W H (path.getLastD 0) visited path)
        visited path g c).1 ∉ path := by
      intro hmem2
      have : visited.contains _ = true :=
        List.elem_iff.mpr (hperm.mem_iff.mpr hmem2)
      rw [hcont] at this
      exact Bool.false_ne_true this
    have hperm2 := (hperm.cons (chooseNextTile W H L
        (getValidNeighbors W H (path.getLastD 0) visited path)
        visited path g c).1).trans
      (List.perm_append_singleton _ path).symm
    refine ⟨hperm2, ?_, fun n => hperm2.mem_iff⟩
    rw [List.nodup_append]
    exact ⟨hnd, List.nodup_singleton _, fun x hx hx2 =>
      hnotmem ((List.mem_singleton.mp hx2) ▸ hx)⟩

/-- Witness for C4 at a concrete loop step on a 3 x 3 grid. -/
theorem C4_visited_lockstep_witness :
    (([1, 4] : List Nat).Perm [4, 1] ∧ ([4, 1] : List Nat).Nodup ∧
      ∀ n, n ∈ ([1, 4] : List Nat) ↔ n ∈ ([4, 1] : List Nat)) :=
  C4_visited_lockstep 3 3 2 (fun _ => 0) [4] [4] 0 0 [4, 1] [1, 4] 0 1
    (by decide) (by decide) (by decide)

/-- Any full-length path returned by the search loop has exactly the
target length (any configuration). -/
theorem genLoopF_some_length {W H L maxB : Nat} {g : Nat → Nat} :
    ∀ fuel {path visited : List Nat} {btk c : Nat} {p : List Nat} {c2 : Nat},
    genLoopF W H L maxB g fuel path visited btk c = (some p, c2) →
    p.length = L := by
  intro fuel
  induction fuel with
  | zero =>
    intro path visited btk c p c2 h
    rw [genLoopF] at h
    split at h
    · rename_i hbeq
      injection h with h1 _
      injection h1 with h1
      subst h1
      exact beq_iff_eq.mp hbeq
    · exact absurd h (by simp)
  | succ fuel ih =>
    intro path visited btk c p c2 h
    rw [genLoopF] at h
    split at h
    · rcases hstep : genStep W H L g path visited btk c with r | ⟨p1, v1, b1, c1⟩
      · rw [hstep] at h
        rw [genStep_inl hstep] at h
        exact absurd h (by simp)
      · rw [hstep] at h
        exact ih h
    · split at h
      · rename_i hbeq
        injection h with h1 _
        injection h1 with h1
        subst h1
        exact beq_iff_eq.mp hbeq
      · exact absurd h (by simp)

/-- C6: attemptPathGeneration returns either a path of exactly the target
length or null, never a partial path; a dead end at a single-cell path
fails the attempt with null, and any other dead end pops the last cell
from path and visited and increments the backtrack counter. -/
theorem C6_attempt_full_or_null :
    (∀ (W H L maxB : Nat) (g : Nat → Nat) (c : Nat) (p : List Nat)
      (c2 : Nat), attemptPathGeneration W H L maxB g c = (some p, c2) →
      p.length = L) ∧
    (∀ (W H L : Nat) (g : Nat → Nat) (path visited : List Nat) (btk c : Nat),
      getValidNeighbors W H (path.getLastD 0) visited path = [] →
      path.length = 1 →
      genStep W H L g path visited btk c = .inl none) ∧
    (∀ (W H L : Nat) (g : Nat → Nat) (path visited : List Nat) (btk c : Nat),
      getValidNeighbors W H (path.getLastD 0) visited path = [] →
      2 ≤ path.length →
      genStep W H L g path visited btk c =
        .inr (path.dropLast, visited.erase (path.getLastD 0), btk + 1, c)) := by
  refine ⟨?_, ?_, ?_⟩
  · intro W H L maxB g c p c2 h
    unfold attemptPathGeneration at h
    dsimp only at h
    exact genLoopF_some_length _ h
  · intro W H L g path visited btk c hnb hlen
    unfold genStep
    dsimp only
    rw [hnb]
    simp only [List.isEmpty_nil, if_true]
    rw [if_pos (by omega)]
  · intro W H L g path visited btk c hnb hlen
    unfold genStep
    dsimp only
    rw [hnb]
    simp only [List.isEmpty_nil, if_true]
    rw [if_neg (by omega)]

/-- Witness for C6: a successful tiny attempt, a failing dead end, and a
backtracking dead end, each at concrete inputs. -/
theorem C6_attempt_full_or_null_witness :
    ([4, 1] : List Nat).length = 2 ∧
      genStep 1 1 2 (fun _ => 0) [0] [0] 0 0 = .inl none ∧
      genStep 2 1 5 (fun _ => 0) [0, 1] [0, 1] 0 0 =
        .inr (([0, 1] : List Nat).dropLast,
          ([0, 1] : List Nat).erase (([0, 1] : List Nat).getLastD 0),
          0 + 1, 0) :=
  ⟨C6_attempt_full_or_null.1 3 3 2 1 (fun _ => 0) 0 [4, 1] 3 (by decide),
   C6_attempt_full_or_null.2.1 1 1 2 (fun _ => 0) [0] [0] 0 0
     (by decide) (by decide),
   C6_attempt_full_or_null.2.2 2 1 5 (fun _ => 0) [0, 1] [0, 1] 0 0
     (by decide) (by decide)⟩

/-- C5: path generation always terminates within its explicit bounds.
The search loop's result is already fixed at fuel
2*(maxBacktracks - backtrackCount) + (target - path length) — every
iteration either pushes a cell or increments the backtrack counter — and
the snake loop's result is fixed at fuel equal to the remaining length.
This holds for every configuration, including length = width*height and
length > width*height. -/
theorem C5_generation_terminates :
    (∀ (W H L maxB : Nat) (g : Nat → Nat) (fuel : Nat)
      (path visited : List Nat) (btk c : Nat),
      2 * (maxB - btk) + (L - path.length) ≤ fuel →
      genLoopF W H L maxB g fuel path visited btk c =
        genLoopF W H L maxB g (2 * (maxB - btk) + (L - path.length))
          path visited btk c) ∧
    (∀ (W H L fuel : Nat) (path : List Nat) (x : Int) (y : Nat) (d : Int),
      L - path.length ≤ fuel →
      snakeLoopF W H L fuel path x y d =
        snakeLoopF W H L (L - path.length) path x y d) := by
  constructor
  · intro W H L maxB g fuel path visited btk c h
    exact genLoopF_fuel_irrel fuel _ h (Nat.le_refl _)
  · intro W H L fuel path x y d h
    exact snakeLoopF_fuel_irrel fuel _ h (Nat.le_refl _)

/-- Witness for C5 at the game's configuration with concrete fuels. -/
theorem C5_generation_terminates_witness :
    genLoopF 12 8 36 1000 (fun _ => 0) 5000 [40] [40] 0 0 =
      genLoopF 12 8 36 1000 (fun _ => 0)
        (2 * (1000 - 0) + (36 - ([40] : List Nat).length)) [40] [40] 0 0 ∧
    snakeLoopF 12 8 36 50 [] 0 0 1 =
      snakeLoopF 12 8 36 (36 - ([] : List Nat).length) [] 0 0 1 :=
  ⟨C5_generation_terminates.1 12 8 36 1000 (fun _ => 0) 5000 [40] [40] 0 0
     (by decide),
   C5_generation_terminates.2 12 8 36 50 [] 0 0 1 (by decide)⟩

/-- C8: the start cell of every generation attempt is interior: its
column is between 1 and width - 2 and its row between 1 and height - 2,
never on the outer ring of the 12 x 8 grid. -/
theorem C8_start_interior (g : Nat → Nat) (c : Nat) :
    1 ≤ startCell 12 8 g c % 12 ∧ startCell 12 8 g c % 12 ≤ 10 ∧
      1 ≤ startCell 12 8 g c / 12 ∧ startCell 12 8 g c / 12 ≤ 6 := by
  unfold startCell
  dsimp only
  omega

/-! C7: the claim's description of chooseNextTile, written from its words,
to be compared with the source definition. -/

/-- The selection procedure exactly as the claim states it: a single
neighbor is returned directly; otherwise candidates are scored by their
own valid-neighbor count after being added, score-0 candidates are
discarded unless the path is within 2 cells of the target length, and the
result is drawn uniformly among the top min(3, survivors) survivors
sorted descending by score.  The claim names no outcome when no survivor
remains, so the procedure produces none there. -/
def chooseNextTileClaim (W H L : Nat) (neighbors visited path : List Nat)
    (g : Nat → Nat) (c : Nat) : Option (Nat × Nat) :=
  if neighbors.length == 1 then
    some (neighbors.headD 0, c)
  else
    let scored := neighbors.map (fun n =>
      (n, (getValidNeighbors W H n (n :: visited) (path ++ [n])).length))
    let remainingTiles : Int := (L : Int) - (path.length : Int)
    let viable := scored.filter (fun s => decide (0 < s.2) || decide (remainingTiles ≤ 2))
    if viable.isEmpty then none
    else
      let sorted := sortByScoreDesc viable
      let topCount := min 3 sorted.length
      let topOptions := sorted.take topCount
      some ((topOptions.getD (g c % topOptions.length) (0, 0)).1, c + 1)

/-- The amended claim: as the original claim, plus — when no candidate
survives the score filter, the result is chosen uniformly at random among
all the neighbors. -/
def chooseNextTileAmendedClaim (W H L : Nat)
    (neighbors visited path : List Nat) (g : Nat → Nat) (c : Nat) :
    Nat × Nat :=
  if neighbors.length == 1 then
    (neighbors.headD 0, c)
  else
    let scored := neighbors.map (fun n =>
      (n, (getValidNeighbors W H n (n :: visited) (path ++ [n])).length))
    let remainingTiles : Int := (L : Int) - (path.length : Int)
    let viable := scored.filter (fun s => decide (0 < s.2) || decide (remainingTiles ≤ 2))
    if viable.isEmpty then
      (neighbors.getD (g c % neighbors.length) 0, c + 1)
    else
      let sorted := sortByScoreDesc viable
      let topCount := min 3 sorted.length
      let topOptions := sorted.take topCount
      ((topOptions.getD (g c % topOptions.length) (0, 0)).1, c + 1)

/-- C7 counterexample: with two neighbors that both score 0 and 35 cells
still to place, the claimed procedure produces no survivor to choose
from, while the source function falls back to a uniformly random
neighbor and returns one. -/
theorem C7_counterexample :
    chooseNextTileClaim 12 8 36 [0, 2] [1, 12, 3, 14] [5]
        (fun _ => 0) 0 = none ∧
      chooseNextTile 12 8 36 [0, 2] [1, 12, 3, 14] [5]
        (fun _ => 0) 0 = (0, 1) :=
  ⟨by decide, by decide⟩

/-- C7, amended: chooseNextTile implements the claimed scored selection
together with the random-neighbor fallback when no candidate survives
the score filter. -/
theorem C7_choose_next_tile_amended (W H L : Nat)
    (neighbors visited path : List Nat) (g : Nat → Nat) (c : Nat) :
    chooseNextTile W H L neighbors visited path g c =
      chooseNextTileAmendedClaim W H L neighbors visited path g c := rfl

/-! C9: determinism with respect to the random stream. -/

theorem chooseNextTile_ext {W H L : Nat} {nb v p : List Nat}
    {g1 g2 : Nat → Nat} {c1 c2 : Nat}
    (h : ∀ i, g1 (c1 + i) = g2 (c2 + i)) :
    ∃ r k, chooseNextTile W H L nb v p g1 c1 = (r, c1 + k) ∧
      chooseNextTile W H L nb v p g2 c2 = (r, c2 + k) := by
  have hd : g1 c1 = g2 c2 := by
    have := h 0
    rwa [Nat.add_zero, Nat.add_zero] at this
  unfold chooseNextTile
  by_cases h1 : (nb.length == 1) = true
  · rw [if_pos h1, if_pos h1]
    exact ⟨nb.headD 0, 0, by rw [Nat.add_zero], by rw [Nat.add_zero]⟩
  · rw [if_neg h1, if_neg h1]
    dsimp only
    split
    · exact ⟨_, 1, rfl, by rw [← hd]⟩
    · exact ⟨_, 1, rfl, by rw [← hd]⟩

theorem genStep_ext {W H L : Nat} {g1 g2 : Nat → Nat}
    {path visited : List Nat} {btk c1 c2 : Nat}
    (h : ∀ i, g1 (c1 + i) = g2 (c2 + i)) :
    (∃ r, genStep W H L g1 path visited btk c1 = .inl r ∧
      genStep W H L g2 path visited btk c2 = .inl r) ∨
    (∃ p v b k, genStep W H L g1 path visited btk c1 = .inr (p, v, b, c1 + k) ∧
      genStep W H L g2 path visited btk c2 = .inr (p, v, b, c2 + k)) := by
  unfold genStep
  dsimp only
  split
  · split
    · exact Or.inl ⟨none, rfl, rfl⟩
    · exact Or.inr ⟨path.dropLast, visited.erase (path.getLastD 0), btk + 1,
        0, by simp, by simp⟩
  · obtain ⟨r, k, h1, h2⟩ := @chooseNextTile_ext W H L
      (getValidNeighbors W H (path.getLastD 0) visited path)
      visited path g1 g2 c1 c2 h
    exact Or.inr ⟨path ++ [r], r :: visited, btk, k, by rw [h1], by rw [h2]⟩

theorem genLoopF_ext {W H L maxB : Nat} {g1 g2 : Nat → Nat} :
    ∀ fuel {path visited : List Nat} {btk c1 c2 : Nat},
    (∀ i, g1 (c1 + i) = g2 (c2 + i)) →
    ∃ o k, genLoopF W H L maxB g1 fuel path visited btk c1 = (o, c1 + k) ∧
      genLoopF W H L maxB g2 fuel path visited btk c2 = (o, c2 + k) := by
  intro fuel
  induction fuel with
  | zero =>
    intro path visited btk c1 c2 h
    exact ⟨_, 0, by rw [genLoopF, Nat.add_zero], by rw [genLoopF, Nat.add_zero]⟩
  | succ fuel ih =>
    intro path visited btk c1 c2 h
    by_cases hg : path.length < L ∧ btk < maxB
    · rw [genLoopF, genLoopF, if_pos hg, if_pos hg]
      rcases @genStep_ext W H L g1 g2 path visited btk c1 c2 h with
        ⟨r, h1, h2⟩ | ⟨p, v, b, k, h1, h2⟩
      · rw [h1, h2]
        exact ⟨r, 0, by rw [Nat.add_zero], by rw [Nat.add_zero]⟩
      · rw [h1, h2]
        dsimp only
        have h3 : ∀ i, g1 (c1 + k + i) = g2 (c2 + k + i) := by
          intro i
          have := h (k + i)
          rwa [← Nat.add_assoc, ← Nat.add_assoc] at this
        obtain ⟨o, k2, h4, h5⟩ := @ih p v b (c1 + k) (c2 + k) h3
        exact ⟨o, k + k2, by rw [h4, Nat.add_assoc],
          by rw [h5, Nat.add_assoc]⟩
    · rw [genLoopF, genLoopF, if_neg hg, if_neg hg]
      exact ⟨_, 0, by rw [Nat.add_zero], by rw [Nat.add_zero]⟩

theorem attempt_ext {W H L maxB : Nat} {g1 g2 : Nat → Nat} {c1 c2 : Nat}
    (h : ∀ i, g1 (c1 + i) = g2 (c2 + i)) :
    ∃ o k, attemptPathGeneration W H L maxB g1 c1 = (o, c1 + k) ∧
      attemptPathGeneration W H L maxB g2 c2 = (o, c2 + k) := by
  have hs : startCell W H g1 c1 = startCell W H g2 c2 := by
    unfold startCell
    have h0 := h 0
    have h1 := h 1
    rw [Nat.add_zero, Nat.add_zero] at h0
    rw [h0, h1]
  have h2 : ∀ i, g1 (c1 + 2 + i) = g2 (c2 + 2 + i) := by
    intro i
    have := h (2 + i)
    rwa [← Nat.add_assoc, ← Nat.add_assoc] at this
  unfold attemptPathGeneration
  dsimp only
  rw [hs]
  obtain ⟨o, k, h3, h4⟩ := @genLoopF_ext W H L maxB g1 g2 (2 * maxB + L)
    [startCell W H g2 c2] [startCell W H g2 c2] 0 (c1 + 2) (c2 + 2) h2
  exact ⟨o, 2 + k, by rw [h3, Nat.add_assoc], by rw [h4, Nat.add_assoc]⟩

theorem genTries_ext {W H L maxB : Nat} {g1 g2 : Nat → Nat} :
    ∀ fuel {c1 c2 : Nat},
    (∀ i, g1 (c1 + i) = g2 (c2 + i)) →
    ∃ o k, genTries W H L maxB g1 fuel c1 = (o, c1 + k) ∧
      genTries W H L maxB g2 fuel c2 = (o, c2 + k) := by
  intro fuel
  induction fuel with
  | zero =>
    intro c1 c2 h
    exact ⟨none, 0, by rw [genTries, Nat.add_zero],
      by rw [genTries, Nat.add_zero]⟩
  | succ fuel ih =>
    intro c1 c2 h
    rw [genTries, genTries]
    obtain ⟨o, k, h1, h2⟩ := @attempt_ext W H L maxB g1 g2 c1 c2 h
    rw [h1, h2]
    have h3 : ∀ i, g1 (c1 + k + i) = g2 (c2 + k + i) := by
      intro i
      have := h (k + i)
      rwa [← Nat.add_assoc, ← Nat.add_assoc] at this
    cases o with
    | none =>
      obtain ⟨o2, k2, h4, h5⟩ := ih h3
      exact ⟨o2, k + k2, by dsimp only; rw [h4, Nat.add_assoc],
        by dsimp only; rw [h5, Nat.add_assoc]⟩
    | some q =>
      dsimp only
      split
      · exact ⟨some q, k, rfl, rfl⟩
      · obtain ⟨o2, k2, h4, h5⟩ := ih h3
        exact ⟨o2, k + k2, by rw [h4, Nat.add_assoc],
          by rw [h5, Nat.add_assoc]⟩

/-- C9: path generation is deterministic in its randomness source — two
runs of generatePath reading the same stream of random draws (possibly at
different offsets) return identical paths. -/
theorem C9_deterministic (g1 g2 : Nat → Nat) (c1 c2 : Nat)
    (h : ∀ i, g1 (c1 + i) = g2 (c2 + i)) :
    (generatePath g1 c1).1 = (generatePath g2 c2).1 := by
  unfold generatePath
  obtain ⟨o, k, h1, h2⟩ := @genTries_ext GRID_WIDTH GRID_HEIGHT
    PATH_LENGTH 1000 g1 g2 200 c1 c2 h
  rw [h1, h2]
  cases o with
  | none => rfl
  | some p => rfl

/-- Witness for C9: two streams agreeing from offsets 5 and 0. -/
theorem C9_deterministic_witness :
    (generatePath (fun i => i + 7) 5).1 = (generatePath (fun i => i + 12) 0).1 :=
  C9_deterministic (fun i => i + 7) (fun i => i + 12) 5 0 (fun i => by dsimp only; omega)

/-- C10: requesting a peek increments peekCount exactly when the game is
in RECALL mode, always clears the selected tiles — erasing any recall
progress — and switches the mode to MEMORIZE, leaving the pattern
untouched. -/
theorem C10_showPattern_peek (s : GameState) :
    (showPattern s).peekCount =
        (if s.mode = Mode.RECALL then s.peekCount + 1 else s.peekCount) ∧
      (showPattern s).userSelected = [] ∧
      (showPattern s).mode = Mode.MEMORIZE ∧
      (showPattern s).pattern = s.pattern := by
  by_cases h : s.mode = Mode.RECALL <;>
    simp [showPattern, h]

end PatternRecall
